import Mathlib

/-!
Shallow embedding of the `stock_alert` backtest engines.

Source files embedded here:
* `backtest_simulation.py` — `calculate_rsi`, the pre-fetch/indicator phase and
  the portfolio simulation loop of `run_portfolio_simulation` (namespace `BSim`);
* `backtest.py` — `get_ref_val`, the pre-fetch phase and the exit/entry logic of
  its `run_portfolio_simulation` (namespace `BT`).

Modelling conventions (used consistently below):
* float prices are exact rationals (`ℚ`);
* a pandas `NaN` / missing value is `Option.none`; IEEE comparisons against a
  `NaN` (which are always false in the source's float world) are spelled out at
  each use site;
* dates (pandas timestamps of daily bars) are natural numbers counting calendar
  days, so `(d2 - d1).days` in the source is plain subtraction here;
* Python's stable ascending `list.sort` is the stable insertion sort `pySort`
  driven by the source's `<` comparison on keys;
* a division whose divisor the source guarantees nonzero is `ℚ` division
  (total, with `x / 0 = 0`); the pandas division `avgGain / avgLoss` with a
  zero divisor, which yields `inf` (then RSI exactly 100) for a positive
  numerator and `NaN` for `0 / 0`, is modelled by those exact outcomes;
* dictionary lookups that the source guarantees to succeed
  (`market_data[ticker]`) are `Option`-valued lookups whose `none` branch
  returns the state unchanged; that branch is unreachable in any run produced
  by the driver itself.
-/

/-- One raw OHLC bar, as fetched for one instrument on one session. -/
structure Bar where
  open_ : ℚ
  high : ℚ
  low : ℚ
  close : ℚ
deriving DecidableEq

/-- A row of the reference-index (SPY) frame: close and rolling 200-session
mean of close (`none` during warm-up). -/
structure SpyRow where
  close : ℚ
  sma200 : Option ℚ
deriving DecidableEq

/-- A row of a per-instrument indicator frame, after the pre-fetch phase of
`run_portfolio_simulation` added `RSI`, the SPY join and `BuyThreshold`
columns to the OHLC history. -/
structure Row where
  open_ : ℚ
  high : ℚ
  low : ℚ
  close : ℚ
  rsi : Option ℚ
  spyClose : Option ℚ
  spySma200 : Option ℚ
  buyThreshold : Option ℚ
deriving DecidableEq

/-- One instrument's entry in `market_data`: its ticker and its date-indexed
indicator frame (dates strictly increasing in any fetched history). -/
structure Frame where
  ticker : Nat
  rows : List (Nat × Row)
deriving DecidableEq

/-- The raw inputs the pre-fetch phase consumes for one instrument: the
`targetMeanPrice` from `stock.info` (`none` when the API has no analyst
target) and the fetched bar history. -/
structure RawStock where
  ticker : Nat
  target : Option ℚ
  bars : List (Nat × Bar)
deriving DecidableEq

/-- `df.loc[current_date]` guarded by `current_date in df.index`. -/
def Frame.rowOn (f : Frame) (d : Nat) : Option Row :=
  (f.rows.find? (fun p => decide (p.1 = d))).map Prod.snd

/-- `market_data[ticker]` as an option-valued lookup. -/
def frameOf (frames : List Frame) (t : Nat) : Option Frame :=
  frames.find? (fun f => decide (f.ticker = t))

/-- Row of the SPY frame joined by date (`none` when SPY has no bar there). -/
def spyLookup (spy : List (Nat × SpyRow)) (d : Nat) : Option SpyRow :=
  (spy.find? (fun p => decide (p.1 = d))).map Prod.snd

/-- Maximum of a list of rationals (`none` on the empty list). -/
def listMax : List ℚ → Option ℚ
  | [] => none
  | x :: xs => some (xs.foldl max x)

/-- `hist['High'].rolling(window=126).max()` at position `i`: the maximum of
the 126 highs ending at `i`, `NaN` (here `none`) until 126 values exist. -/
def high6mAt (highs : List ℚ) (i : Nat) : Option ℚ :=
  if 125 ≤ i ∧ i < highs.length then listMax ((highs.take (i + 1)).drop (i - 125)) else none

/-- `series.diff()` at position `j` (only used for `1 ≤ j < length`). -/
def riseAt (closes : List ℚ) (j : Nat) : ℚ :=
  closes.getD j 0 - closes.getD (j - 1) 0

/-- Position `j` of the masked gain series `delta.where(delta > 0, 0)`: the
position-0 `NaN` of `series.diff()` compares false against 0, so `where`
replaces it by the fill value 0; every later position keeps its positive
rise (non-positive rises become 0). -/
def gainAt (closes : List ℚ) (j : Nat) : ℚ :=
  if j = 0 then 0 else max (riseAt closes j) 0

/-- Position `j` of the masked loss series `(-delta.where(delta < 0, 0))`:
the position-0 `NaN` is likewise replaced by 0 before the negation. -/
def lossAt (closes : List ℚ) (j : Nat) : ℚ :=
  if j = 0 then 0 else max (-(riseAt closes j)) 0

/-- The window of the masked gain series entering the rolling mean at
position `i` of `calculate_rsi` (positions `i-13 .. i`). -/
def gainWindow (closes : List ℚ) (i : Nat) : List ℚ :=
  (List.range 14).map (fun k => gainAt closes (i - 13 + k))

/-- The window of the masked loss series entering the rolling mean at
position `i` of `calculate_rsi`. -/
def lossWindow (closes : List ℚ) (i : Nat) : List ℚ :=
  (List.range 14).map (fun k => lossAt closes (i - 13 + k))

/-- `gain = (delta.where(delta > 0, 0)).rolling(window=14).mean()` at `i`.
Because `where` masks the position-0 `NaN` of the diff to 0, the masked
series has no `NaN` at all, and the 14-session rolling mean is first
defined at index 13 (window over positions `0 .. 13`): defined exactly for
`13 ≤ i < length`. -/
def avgGainAt (closes : List ℚ) (i : Nat) : Option ℚ :=
  if 13 ≤ i ∧ i < closes.length then some ((gainWindow closes i).sum / 14) else none

/-- `loss = (-delta.where(delta < 0, 0)).rolling(window=14).mean()` at `i`,
defined exactly for `13 ≤ i < length` like `avgGainAt`. -/
def avgLossAt (closes : List ℚ) (i : Nat) : Option ℚ :=
  if 13 ≤ i ∧ i < closes.length then some ((lossWindow closes i).sum / 14) else none

/-- `calculate_rsi(series, period=14)` at position `i`:
`rs = gain / loss; rsi = 100 - 100 / (1 + rs)`, first defined at index 13
(the 14th session), where the averages are.  In the source this is float
arithmetic: with `loss = 0` and `gain > 0` the ratio is `inf` and the result
is exactly `100`; with `loss = 0` and `gain = 0` the ratio is `NaN` and so is
the result (modelled as `none`); no arithmetic fault is ever raised. -/
def rsiAt (closes : List ℚ) (i : Nat) : Option ℚ :=
  match avgGainAt closes i, avgLossAt closes i with
  | some g, some l =>
    if l = 0 then (if g = 0 then none else some 100)
    else some (100 - 100 / (1 + g / l))
  | _, _ => none

inductive TradeKind
  | BUY
  | SELL
deriving DecidableEq

/-- The `sell_reason` labels of the two simulation loops:
`"Target (+15%)"`, `"Trailing Stop (-10%)"`, `"Initial Stop (-15%)"` and
`"Time Stop (..d)"`. -/
inductive Reason
  | target
  | trailing
  | initialStop
  | timeStop
deriving DecidableEq

/-- A `trade_log` entry of `backtest_simulation.run_portfolio_simulation`.
BUY entries fill `kind/date/ticker/price/rsi`; SELL entries fill
`kind/date/ticker/price/reason/pnl/pnl_pct/new_balance`.  Fields a given
entry kind does not carry keep their defaults. -/
structure TradeRecord where
  kind : TradeKind
  date : Nat
  ticker : Nat
  price : ℚ
  reason : Option Reason := none
  pnl : ℚ := 0
  pnl_pct : ℚ := 0
  new_balance : ℚ := 0
  rsi : Option ℚ := none
deriving DecidableEq

/-- A candidate tuple `(ticker, price, row['RSI'])` collected by the entry
scan.  The RSI may be `NaN` (`none`) during warm-up. -/
structure Cand where
  ticker : Nat
  price : ℚ
  rsi : Option ℚ
deriving DecidableEq

/-- The float `<` used by `candidates.sort(key=lambda x: x[2])`: any
comparison involving a `NaN` key is false. -/
def keyLt : Option ℚ → Option ℚ → Bool
  | some a, some b => decide (a < b)
  | _, _ => false

/-- Stable insertion of `x` into a sorted list, placing `x` before the first
element not `<` it (the behaviour of Python's stable ascending sort on a
totally ordered key set). -/
def pyInsert (lt : α → α → Bool) (x : α) : List α → List α
  | [] => [x]
  | y :: ys => if lt y x then y :: pyInsert lt x ys else x :: y :: ys

/-- Stable ascending sort driven by a `<` comparison, modelling
`list.sort(key=...)`. -/
def pySort (lt : α → α → Bool) : List α → List α
  | [] => []
  | x :: xs => pyInsert lt x (pySort lt xs)

/-- The comparison `candidates.sort(key=lambda x: x[2])` sorts by. -/
def candLt (a b : Cand) : Bool := keyLt a.rsi b.rsi

/-- `candidates.sort(key=lambda x: x[2]); best_pick = candidates[0]`. -/
def pickBest (l : List Cand) : Option Cand := (pySort candLt l).head?

/-- Union of all per-instrument dates (`all_dates.update(hist.index)`). -/
def allDates (frames : List Frame) : List Nat :=
  (frames.map (fun f => f.rows.map Prod.fst)).flatten

/-- `sorted_dates = sorted(list(all_dates))` where `all_dates` is a set. -/
def sortedDates (frames : List Frame) : List Nat :=
  List.insertionSort (fun a b => a ≤ b) (allDates frames).dedup

/-- The indicator-frame construction shared by both pre-fetch phases: copy
the OHLC columns, add `RSI`, the SPY join, and `BuyThreshold = RefVal * 0.75`
where `RefVal` is computed from the rolling six-month high by `refFn`
(each variant passes its own reference-value formula). -/
def buildRows (spy : List (Nat × SpyRow)) (refFn : Option ℚ → Option ℚ)
    (bars : List (Nat × Bar)) : List (Nat × Row) :=
  let highs := bars.map (fun p => p.2.high)
  let closes := bars.map (fun p => p.2.close)
  ((List.range bars.length).zip bars).map (fun ip =>
    (ip.2.1,
      { open_ := ip.2.2.open_
        high := ip.2.2.high
        low := ip.2.2.low
        close := ip.2.2.close
        rsi := rsiAt closes ip.1
        spyClose := (spyLookup spy ip.2.1).map SpyRow.close
        spySma200 := (spyLookup spy ip.2.1).bind SpyRow.sma200
        buyThreshold := (refFn (high6mAt highs ip.1)).map (fun v => v * 0.75) }))

namespace BSim

/-- The open-position dictionary of `backtest_simulation.py`:
`{'ticker', 'shares', 'entry_price', 'highest_price', 'date'}`. -/
structure Position where
  ticker : Nat
  shares : ℚ
  entry_price : ℚ
  highest_price : ℚ
  date : Nat
deriving DecidableEq

/-- The mutable loop state of the portfolio simulation. -/
structure SimState where
  cash : ℚ
  position : Option Position
  trade_log : List TradeRecord
deriving DecidableEq

/-- Pre-fetch phase of `backtest_simulation.run_portfolio_simulation`
(lines 158-187): a stock is skipped when `not target_price or hist.empty`
(so a missing or zero — falsy — analyst target excludes it), and otherwise
gets the vectorised `RefVal = min(target_price, 6mHigh * 0.80)` column. -/
def prefetch (spy : List (Nat × SpyRow)) (stocks : List RawStock) : List Frame :=
  stocks.filterMap (fun st =>
    match st.target with
    | none => none
    | some t =>
      if t = 0 ∨ st.bars = [] then none
      else some ⟨st.ticker, buildRows spy
        (fun h6 => h6.map (fun x => min t (x * 0.80))) st.bars⟩)

/-- `if high_price > position['highest_price']: position['highest_price'] = high_price`. -/
def updateHighest (pos : Position) (h : ℚ) : Position :=
  if pos.highest_price < h then { pos with highest_price := h } else pos

/-- The exit-rule cascade of `backtest_simulation.run_portfolio_simulation`
(lines 221-241), evaluated on a position whose high-water mark was already
updated with today's high.  Returns the fired `(sell_reason, sell_price)`. -/
def evalExit (strategy_name : String) (pos : Position) (row : Row)
    (days_held : ℤ) : Option (Reason × ℚ) :=
  if strategy_name = "Baseline" then
    if pos.entry_price * 1.15 ≤ row.high then some (Reason.target, pos.entry_price * 1.15)
    else none
  else if strategy_name = "Advanced" then
    if pos.entry_price * 1.15 ≤ row.high then some (Reason.target, pos.entry_price * 1.15)
    else if row.low ≤ pos.highest_price * 0.90 then
      some (Reason.trailing, pos.highest_price * 0.90)
    else if 45 ≤ days_held then some (Reason.timeStop, row.close)
    else none
  else none

/-- The market filter of the Advanced entry:
`if row['SPY_Close'] <= row['SPY_SMA200']: continue`; a `NaN` on either side
makes the float comparison false, so the row passes. -/
def spyPass (row : Row) : Bool :=
  match row.spyClose, row.spySma200 with
  | some a, some b => decide (¬a ≤ b)
  | _, _ => true

/-- The per-row candidate test of the entry scan (lines 274-290): skip when
`BuyThreshold` is `NaN`; require `price <= threshold`; for `"Advanced"` also
`not (RSI >= 30)` (a `NaN` RSI passes) and the SPY filter. -/
def isCandidate (strategy_name : String) (row : Row) : Bool :=
  match row.buyThreshold with
  | none => false
  | some thr =>
    if row.close ≤ thr then
      if strategy_name = "Advanced" then
        match row.rsi with
        | some r => if 30 ≤ r then false else spyPass row
        | none => spyPass row
      else true
    else false

/-- The entry scan over `valid_tickers` in universe order. -/
def collectCandidates (strategy_name : String) (frames : List Frame) (d : Nat) :
    List Cand :=
  frames.filterMap (fun f =>
    match f.rowOn d with
    | none => none
    | some row =>
      if isCandidate strategy_name row then some ⟨f.ticker, row.close, row.rsi⟩ else none)

/-- The SELL entry appended to `trade_log` when an exit fires. -/
def sellRecord (d : Nat) (pos : Position) (sell_price : ℚ) (reason : Reason) :
    TradeRecord :=
  let revenue := pos.shares * sell_price
  let gain := revenue - pos.shares * pos.entry_price
  { kind := TradeKind.SELL
    date := d
    ticker := pos.ticker
    price := sell_price
    reason := some reason
    pnl := gain
    pnl_pct := gain / (pos.shares * pos.entry_price) * 100
    new_balance := revenue }

/-- One iteration of the simulation loop (`for current_date in sorted_dates`),
lines 197-318: exit evaluation when holding (a missing bar for the held
ticker skips the whole date; a SELL skips the entry check), then the entry
scan when flat, buying the lowest-RSI candidate all-in. -/
def step (strategy_name : String) (frames : List Frame) (s : SimState) (d : Nat) :
    SimState :=
  match s.position with
  | some pos0 =>
    match frameOf frames pos0.ticker with
    | none => s
    | some f =>
      match f.rowOn d with
      | none => s
      | some row =>
        let pos := updateHighest pos0 row.high
        match evalExit strategy_name pos row ((d : ℤ) - (pos.date : ℤ)) with
        | some rp =>
          { cash := pos.shares * rp.2
            position := none
            trade_log := s.trade_log ++ [sellRecord d pos rp.2 rp.1] }
        | none => { s with position := some pos }
  | none =>
    match pickBest (collectCandidates strategy_name frames d) with
    | none => s
    | some c =>
      { cash := 0
        position := some
          { ticker := c.ticker
            shares := s.cash / c.price
            entry_price := c.price
            highest_price := c.price
            date := d }
        trade_log := s.trade_log ++
          [{ kind := TradeKind.BUY, date := d, ticker := c.ticker, price := c.price,
             rsi := c.rsi }] }

/-- The simulation loop folded over the unified calendar, starting from
`cash = start_capital`, no position, empty log. -/
def simLoop (strategy_name : String) (frames : List Frame) (start_capital : ℚ)
    (dates : List Nat) : SimState :=
  dates.foldl (step strategy_name frames) ⟨start_capital, none, []⟩

/-- End-of-simulation valuation (lines 320-330): cash when flat, otherwise
mark-to-market at the held instrument's last close.  The `none` fallbacks
correspond to lookups the source performs unguarded (they cannot fail for a
driver-produced position). -/
def finalize (frames : List Frame) (s : SimState) : ℚ × List TradeRecord :=
  match s.position with
  | none => (s.cash, s.trade_log)
  | some pos =>
    match frameOf frames pos.ticker with
    | none => (0, s.trade_log)
    | some f =>
      match f.rows.getLast? with
      | none => (0, s.trade_log)
      | some pr => (pos.shares * pr.2.close, s.trade_log)

/-- `backtest_simulation.run_portfolio_simulation(stocks, strategy_name,
spy_hist, start_capital)`, returning `(final_value, trade_log)`. -/
def run_portfolio_simulation (stocks : List RawStock) (strategy_name : String)
    (spy_hist : List (Nat × SpyRow)) (start_capital : ℚ) : ℚ × List TradeRecord :=
  let frames := prefetch spy_hist stocks
  finalize frames (simLoop strategy_name frames start_capital (sortedDates frames))

end BSim

namespace BT

/-- `get_ref_val(row, tgt)` of `backtest.run_portfolio_simulation`
(lines 175-182): `None` while the six-month high is `NaN`; otherwise
`min(tgt, high * 0.80)` when `tgt` is truthy (present and nonzero) and the
fallback `high * 0.80` when it is `None` or `0`. -/
def get_ref_val (high_6m : Option ℚ) (tgt : Option ℚ) : Option ℚ :=
  match high_6m with
  | none => none
  | some h =>
    match tgt with
    | some t => if t = 0 then some (h * 0.80) else some (min t (h * 0.80))
    | none => some (h * 0.80)

/-- Pre-fetch phase of `backtest.run_portfolio_simulation` (lines 158-189):
only `hist.empty` excludes a stock; a missing analyst target stays in the
universe and flows into `get_ref_val`'s fallback. -/
def prefetch (spy : List (Nat × SpyRow)) (stocks : List RawStock) : List Frame :=
  stocks.filterMap (fun st =>
    if st.bars = [] then none
    else some ⟨st.ticker, buildRows spy (fun h6 => get_ref_val h6 st.target) st.bars⟩)

/-- The open-position dictionary of `backtest.py`, which additionally carries
`'trailing_active'` (initialised to `False` on BUY). -/
structure Position where
  ticker : Nat
  shares : ℚ
  entry_price : ℚ
  highest_price : ℚ
  date : Nat
  trailing_active : Bool
deriving DecidableEq

/-- A `trade_log` entry of `backtest.run_portfolio_simulation`, which records
only `{'type': 'SELL', 'ticker': ..., 'pnl': ...}` (no BUY entries). -/
structure SellRecord where
  kind : TradeKind
  ticker : Nat
  pnl : ℚ
deriving DecidableEq

/-- The mutable loop state of `backtest.run_portfolio_simulation`. -/
structure SimState where
  cash : ℚ
  position : Option Position
  trade_log : List SellRecord
deriving DecidableEq

/-- The two in-place position updates of the non-Baseline exit branch
(lines 231-238): raise the high-water mark with today's high, then activate
the trailing stop once `high >= entry * 1.10`. -/
def updatePos (pos : Position) (row : Row) : Position :=
  let pos1 := if pos.highest_price < row.high then { pos with highest_price := row.high } else pos
  if pos1.trailing_active = false ∧ pos1.entry_price * 1.10 ≤ row.high then
    { pos1 with trailing_active := true }
  else pos1

/-- The exit-rule cascade of `backtest.run_portfolio_simulation`
(lines 225-251), returning the updated position and the fired
`(sell_reason, sell_price)`: profit target, then trailing stop (only once
activated), then the initial hard stop (only while not activated), then the
time stop at `days_held >= time_stop_days`, selling at the day's close. -/
def evalExit (strategy_name : String) (time_stop_days : ℤ) (pos : Position)
    (row : Row) (days_held : ℤ) : Position × Option (Reason × ℚ) :=
  if strategy_name = "Baseline" then
    (pos,
      if pos.entry_price * 1.15 ≤ row.high then some (Reason.target, pos.entry_price * 1.15)
      else none)
  else
    let q := updatePos pos row
    (q,
      if q.entry_price * 1.15 ≤ row.high then some (Reason.target, q.entry_price * 1.15)
      else if q.trailing_active = true ∧ row.low ≤ q.highest_price * 0.90 then
        some (Reason.trailing, q.highest_price * 0.90)
      else if q.trailing_active = false ∧ row.low ≤ q.entry_price * 0.85 then
        some (Reason.initialStop, q.entry_price * 0.85)
      else if time_stop_days ≤ days_held then some (Reason.timeStop, row.close)
      else none)

/-- The per-row candidate test of the entry scan (lines 266-279): as in the
other script, plus the `"Advanced"` green-day rule
`if row['Close'] <= row['Open']: continue`. -/
def isCandidate (strategy_name : String) (row : Row) : Bool :=
  match row.buyThreshold with
  | none => false
  | some thr =>
    if row.close ≤ thr then
      if strategy_name = "Advanced" then
        match row.rsi with
        | some r => if 30 ≤ r then false else BSim.spyPass row && decide (row.open_ < row.close)
        | none => BSim.spyPass row && decide (row.open_ < row.close)
      else true
    else false

/-- The entry scan over `valid_tickers` in universe order. -/
def collectCandidates (strategy_name : String) (frames : List Frame) (d : Nat) :
    List Cand :=
  frames.filterMap (fun f =>
    match f.rowOn d with
    | none => none
    | some row =>
      if isCandidate strategy_name row then some ⟨f.ticker, row.close, row.rsi⟩ else none)

/-- One iteration of the simulation loop of `backtest.run_portfolio_simulation`
(lines 206-287). -/
def step (strategy_name : String) (time_stop_days : ℤ) (frames : List Frame)
    (s : SimState) (d : Nat) : SimState :=
  match s.position with
  | some pos0 =>
    match frameOf frames pos0.ticker with
    | none => s
    | some f =>
      match f.rowOn d with
      | none => s
      | some row =>
        match evalExit strategy_name time_stop_days pos0 row ((d : ℤ) - (pos0.date : ℤ)) with
        | (pos, some rp) =>
          { cash := pos.shares * rp.2
            position := none
            trade_log := s.trade_log ++
              [{ kind := TradeKind.SELL, ticker := pos.ticker,
                 pnl := pos.shares * rp.2 - pos.shares * pos.entry_price }] }
        | (pos, none) => { s with position := some pos }
  | none =>
    match pickBest (collectCandidates strategy_name frames d) with
    | none => s
    | some c =>
      { cash := 0
        position := some
          { ticker := c.ticker
            shares := s.cash / c.price
            entry_price := c.price
            highest_price := c.price
            date := d
            trailing_active := false }
        trade_log := s.trade_log }

/-- The simulation loop folded over a calendar. -/
def simLoop (strategy_name : String) (time_stop_days : ℤ) (frames : List Frame)
    (start_capital : ℚ) (dates : List Nat) : SimState :=
  dates.foldl (step strategy_name time_stop_days frames) ⟨start_capital, none, []⟩

end BT

/-- The reference-value formula exactly as the specification words it:
`min(analystTarget, sixMonthHigh * 0.80)` whenever an analyst target exists,
`sixMonthHigh * 0.80` otherwise. -/
def refVal_spec (sixMonthHigh : ℚ) (analystTarget : Option ℚ) : ℚ :=
  match analystTarget with
  | some t => min t (sixMonthHigh * 0.80)
  | none => sixMonthHigh * 0.80

/-- Alternation check for a trade log: starting from `b = true` (a BUY is
expected next), the log must read BUY, SELL, BUY, SELL, ... — i.e. one BUY
followed by one SELL per round trip, plus at most one trailing BUY. -/
def shapeFrom : Bool → List TradeRecord → Bool
  | _, [] => true
  | b, r :: rs =>
    (if b then decide (r.kind = TradeKind.BUY) else decide (r.kind = TradeKind.SELL)) &&
      shapeFrom (!b) rs

/-- The expectation flag left over after consuming a log. -/
def expectAfter (b : Bool) : List TradeRecord → Bool
  | [] => b
  | _ :: rs => expectAfter (!b) rs

/-- Positivity of the OHLC data entering a run: every bar of every stock has
a positive high and close (well-formed market data). -/
def RawPos (stocks : List RawStock) : Prop :=
  ∀ st ∈ stocks, ∀ p ∈ st.bars, 0 < p.2.high ∧ 0 < p.2.close

/-- Positivity of the rows of the indicator frames entering the loop. -/
def FramesPos (frames : List Frame) : Prop :=
  ∀ f ∈ frames, ∀ p ∈ f.rows, 0 < p.2.high ∧ 0 < p.2.close

namespace BSim

/-- The part of the loop invariant about cash and the open position: the
state is fully liquid (`cash > 0`, no position) or fully invested
(`cash = 0` and a position with positive size and prices). -/
def stateOk (s : SimState) : Prop :=
  match s.position with
  | none => 0 < s.cash
  | some p => s.cash = 0 ∧ 0 < p.shares ∧ 0 < p.entry_price ∧ 0 < p.highest_price

/-- The full loop invariant: `stateOk`, alternating log, expectation flag in
sync with the position, and strictly increasing log dates. -/
def Inv (s : SimState) : Prop :=
  stateOk s ∧ shapeFrom true s.trade_log = true ∧
    expectAfter true s.trade_log = s.position.isNone ∧
    s.trade_log.Pairwise (fun a b => a.date < b.date)

end BSim

/-- Concrete fixture: a bar with all prices 1. -/
def bar1 : Bar := ⟨1, 1, 1, 1⟩

/-- Concrete fixture: a stock whose analyst target is absent but whose
history is nonempty. -/
def stockNoTarget : RawStock := ⟨0, none, [(0, bar1)]⟩

/-- Concrete fixture: an entry row (threshold 60, close 50, green day,
RSI 20) used to open a position in the `backtest.py` loop. -/
def rowBuy : Row :=
  { open_ := 49, high := 51, low := 48, close := 50, rsi := some 20,
    spyClose := none, spySma200 := none, buyThreshold := some 60 }

/-- Concrete fixture: a quiet follow-up row (high 52, low 45, close 51) on
which no price-based exit can fire for an entry at 50. -/
def rowStop : Row :=
  { open_ := 51, high := 52, low := 45, close := 51, rsi := none,
    spyClose := none, spySma200 := none, buyThreshold := none }

/-- Concrete fixture: one instrument with bars on days 0 and 61 only —
two trading sessions separated by 61 calendar days. -/
def frameC9 : Frame := ⟨7, [(0, rowBuy), (61, rowStop)]⟩

/-- Concrete fixture: the position the `backtest.py` loop opens on day 0 of
`frameC9` with capital 10000. -/
def posC9 : BT.Position :=
  { ticker := 7, shares := 200, entry_price := 50, highest_price := 50,
    date := 0, trailing_active := false }

/-- Concrete fixture: a Baseline position for exercising the profit target. -/
def posB : BSim.Position :=
  { ticker := 1, shares := 10, entry_price := 100, highest_price := 100, date := 0 }

/-- Concrete fixture: a row whose high 120 crosses the +15 percent target of
an entry at 100. -/
def rowB : Row :=
  { open_ := 100, high := 120, low := 99, close := 118, rsi := none,
    spyClose := none, spySma200 := none, buyThreshold := none }

/-- Concrete fixture: an entry row with RSI 25 and close 50 for the
tie-break theorem. -/
def rowTieA : Row :=
  { open_ := 50, high := 51, low := 49, close := 50, rsi := some 25,
    spyClose := none, spySma200 := none, buyThreshold := some 60 }

/-- Concrete fixture: an entry row with the same RSI 25 and close 40. -/
def rowTieB : Row :=
  { open_ := 40, high := 41, low := 39, close := 40, rsi := some 25,
    spyClose := none, spySma200 := none, buyThreshold := some 60 }

/-- Concrete fixture: first-listed instrument for the tie-break theorem. -/
def frameTieA : Frame := ⟨3, [(0, rowTieA)]⟩

/-- Concrete fixture: second-listed instrument, tied on RSI. -/
def frameTieB : Frame := ⟨9, [(0, rowTieB)]⟩

/-- Concrete fixture: a strictly increasing 20-session close series. -/
def closesUp : List ℚ :=
  [1, 2, 3, 4, 5, 6, 7, 8, 9, 10, 11, 12, 13, 14, 15, 16, 17, 18, 19, 20]

/-- Concrete fixture: a flat 20-session close series. -/
def closesFlat : List ℚ := List.replicate 20 5

/-! Helper lemmas about the embedded operations. -/

theorem BT.updatePos_entry_price (pos : BT.Position) (row : Row) :
    (BT.updatePos pos row).entry_price = pos.entry_price := by
  simp only [BT.updatePos]
  split <;> split <;> rfl

theorem BT.updatePos_shares (pos : BT.Position) (row : Row) :
    (BT.updatePos pos row).shares = pos.shares := by
  simp only [BT.updatePos]
  split <;> split <;> rfl

theorem BSim.updateHighest_shares (pos : BSim.Position) (h : ℚ) :
    (BSim.updateHighest pos h).shares = pos.shares := by
  unfold BSim.updateHighest
  split <;> rfl

theorem BSim.updateHighest_entry_price (pos : BSim.Position) (h : ℚ) :
    (BSim.updateHighest pos h).entry_price = pos.entry_price := by
  unfold BSim.updateHighest
  split <;> rfl

theorem BSim.updateHighest_date (pos : BSim.Position) (h : ℚ) :
    (BSim.updateHighest pos h).date = pos.date := by
  unfold BSim.updateHighest
  split <;> rfl

theorem BSim.updateHighest_ticker (pos : BSim.Position) (h : ℚ) :
    (BSim.updateHighest pos h).ticker = pos.ticker := by
  unfold BSim.updateHighest
  split <;> rfl

theorem BSim.updateHighest_pos (pos : BSim.Position) (h : ℚ)
    (hp : 0 < pos.highest_price) : 0 < (BSim.updateHighest pos h).highest_price := by
  unfold BSim.updateHighest
  split
  · linarith
  · exact hp

/-- The zero-capital absorbing property of one loop iteration: with no cash
and a zero-share position, every transition keeps cash at zero. -/
theorem BSim.step_zero (strategy_name : String) (frames : List Frame)
    (s : BSim.SimState) (d : Nat)
    (h : s.cash = 0 ∧ ∀ p, s.position = some p → p.shares = 0) :
    (BSim.step strategy_name frames s d).cash = 0 ∧
      ∀ p, (BSim.step strategy_name frames s d).position = some p → p.shares = 0 := by
  obtain ⟨hc, hs⟩ := h
  unfold BSim.step
  cases hp : s.position with
  | none =>
    dsimp only
    cases pickBest (BSim.collectCandidates strategy_name frames d) with
    | none => exact ⟨hc, fun p hq => hs p (hp ▸ hq)⟩
    | some c =>
      refine ⟨rfl, fun p hq => ?_⟩
      cases hq
      simp [hc]
  | some pos0 =>
    dsimp only
    cases frameOf frames pos0.ticker with
    | none => exact ⟨hc, fun p hq => hs p (hp ▸ hq)⟩
    | some f =>
      dsimp only
      cases f.rowOn d with
      | none => exact ⟨hc, fun p hq => hs p (hp ▸ hq)⟩
      | some row =>
        have hsh : (BSim.updateHighest pos0 row.high).shares = 0 := by
          rw [BSim.updateHighest_shares]
          exact hs pos0 hp
        dsimp only
        cases BSim.evalExit strategy_name (BSim.updateHighest pos0 row.high) row
            ((d : ℤ) - ((BSim.updateHighest pos0 row.high).date : ℤ)) with
        | none =>
          refine ⟨hc, fun p hq => ?_⟩
          cases hq
          exact hsh
        | some rp =>
          refine ⟨by simp [hsh], fun p hq => ?_⟩
          dsimp only at hq
          cases hq

/-- `finalize` keeps a zero valuation when cash is zero and any open
position has zero shares. -/
theorem BSim.finalize_fst_zero (frames : List Frame) (s : BSim.SimState)
    (hc : s.cash = 0) (hs : ∀ p, s.position = some p → p.shares = 0) :
    (BSim.finalize frames s).1 = 0 := by
  obtain ⟨c, pos, log⟩ := s
  cases pos with
  | none => exact hc
  | some p =>
    have hp : p.shares = 0 := hs p rfl
    unfold BSim.finalize
    dsimp only
    cases frameOf frames p.ticker with
    | none => rfl
    | some f =>
      dsimp only
      cases f.rows.getLast? with
      | none => rfl
      | some pr =>
        dsimp only
        rw [hp, zero_mul]

/-- The zero-capital property propagated through the whole loop. -/
theorem BSim.loop_zero (strategy_name : String) (frames : List Frame) :
    ∀ (dates : List Nat) (s : BSim.SimState),
      s.cash = 0 → (∀ p, s.position = some p → p.shares = 0) →
      (List.foldl (BSim.step strategy_name frames) s dates).cash = 0 ∧
        ∀ p, (List.foldl (BSim.step strategy_name frames) s dates).position = some p →
          p.shares = 0 := by
  intro dates
  induction dates with
  | nil => exact fun s hc hs => ⟨hc, hs⟩
  | cons d ds ih =>
    intro s hc hs
    have h := BSim.step_zero strategy_name frames s d ⟨hc, hs⟩
    exact ih (BSim.step strategy_name frames s d) h.1 h.2

/-- C5, counterexample.  The claim says a run configured with an empty
instrument universe fails fast with a descriptive error before the loop; the
code performs no validation at all and completes, returning the degenerate
trade-free result `(start_capital, [])`. -/
theorem C5_counterexample :
    BSim.run_portfolio_simulation [] "Baseline" [] 10000 = (10000, []) := rfl

/-- C5, amended: `run_portfolio_simulation` performs no configuration
validation.  An empty instrument universe completes and returns the starting
capital with an empty trade log (for every strategy, SPY history and
capital), and a zero starting capital completes with `final_value = 0`
(for every universe): both degenerate runs finish silently instead of
failing fast. -/
theorem C5_no_fail_fast :
    (∀ (strategy_name : String) (spy : List (Nat × SpyRow)) (c : ℚ),
        BSim.run_portfolio_simulation [] strategy_name spy c = (c, [])) ∧
    (∀ (stocks : List RawStock) (strategy_name : String) (spy : List (Nat × SpyRow)),
        (BSim.run_portfolio_simulation stocks strategy_name spy 0).1 = 0) := by
  constructor
  · intro strategy_name spy c
    rfl
  · intro stocks strategy_name spy
    have h := BSim.loop_zero strategy_name (BSim.prefetch spy stocks)
      (sortedDates (BSim.prefetch spy stocks)) ⟨0, none, []⟩ rfl (by intro p hq; cases hq)
    exact BSim.finalize_fst_zero (BSim.prefetch spy stocks) _ h.1 h.2

/-- C3, counterexample.  With `sixMonthHigh = 100` the code's `get_ref_val`
treats a present-but-zero analyst target (`targetMeanPrice = 0.0`, falsy in
`if tgt:`) through the fallback and returns `80`, while the claim's formula
`min(analystTarget, sixMonthHigh * 0.80)` for an existing target gives
`min(0, 80) = 0`. -/
theorem C3_counterexample :
    BT.get_ref_val (some 100) (some 0) ≠ some (refVal_spec 100 (some 0)) := by
  norm_num [BT.get_ref_val, refVal_spec]

/-- C3, amended: for every instrument and date where the six-month high is
defined, `referenceValue = min(analystTarget, sixMonthHigh * 0.80)` when a
nonzero analyst target exists, and `sixMonthHigh * 0.80` when the target is
absent (or zero, which Python truthiness routes to the same fallback); the
buy threshold is `referenceValue * 0.75`.  In particular `sixMonthHigh =
100, analystTarget = 90` gives `referenceValue = 80` and `buyThreshold =
60`. -/
theorem C3_threshold_formula :
    (∀ h t : ℚ, t ≠ 0 → BT.get_ref_val (some h) (some t) = some (min t (h * 0.80))) ∧
    (∀ h : ℚ, BT.get_ref_val (some h) none = some (h * 0.80)) ∧
    BT.get_ref_val (some 100) (some 90) = some 80 ∧
    (BT.get_ref_val (some 100) (some 90)).map (fun v => v * 0.75) = some 60 := by
  have h90 : BT.get_ref_val (some 100) (some 90) = some 80 := by
    norm_num [BT.get_ref_val, min_def]
  refine ⟨fun h t ht => ?_, fun h => rfl, h90, by rw [h90]; norm_num⟩
  simp [BT.get_ref_val, ht]

/-- Witness for `C3_threshold_formula` at `sixMonthHigh = 100`,
`analystTarget = 90`. -/
theorem C3_witness :
    BT.get_ref_val (some 100) (some 90) = some (min 90 (100 * 0.80)) :=
  C3_threshold_formula.1 100 90 (by norm_num)

/-- C4, counterexample.  In `backtest_simulation.run_portfolio_simulation`
an instrument with a nonempty history but no analyst target is dropped from
the run's universe by the pre-fetch filter (`if not target_price or
hist.empty: continue`), contrary to the claim that a missing target is
never an exclusion. -/
theorem C4_counterexample : BSim.prefetch [] [stockNoTarget] = [] := rfl

/-- C4, amended: the fallback holds in `backtest.run_portfolio_simulation`:
an instrument with a nonempty history stays in the run's universe even with
no analyst target, and its reference value is then `sixMonthHigh * 0.80`
alone; `backtest_simulation.run_portfolio_simulation`, by contrast, excludes
such instruments during pre-fetch (see the counterexample). -/
theorem C4_fallback_in_backtest :
    ∀ (spy : List (Nat × SpyRow)) (stocks : List RawStock) (st : RawStock),
      st ∈ stocks → st.target = none → st.bars ≠ [] →
      (∃ f ∈ BT.prefetch spy stocks, f.ticker = st.ticker) ∧
      ∀ h : ℚ, BT.get_ref_val (some h) st.target = some (h * 0.80) := by
  intro spy stocks st hmem htgt hne
  constructor
  · refine ⟨⟨st.ticker, buildRows spy (fun h6 => BT.get_ref_val h6 st.target) st.bars⟩, ?_, rfl⟩
    unfold BT.prefetch
    exact List.mem_filterMap.mpr ⟨st, hmem, by rw [if_neg hne]⟩
  · intro h
    rw [htgt]
    rfl

/-- Witness for `C4_fallback_in_backtest` on the concrete target-less
stock: its frame survives pre-fetch (the universe is nonempty) and its
reference value uses the fallback formula. -/
theorem C4_witness :
    BT.prefetch [] [stockNoTarget] ≠ [] ∧
    BT.get_ref_val (some 100) stockNoTarget.target = some (100 * 0.80) := by
  have h := C4_fallback_in_backtest [] [stockNoTarget] stockNoTarget (by decide) rfl
    (by decide)
  obtain ⟨⟨f, hf, _⟩, hv⟩ := h
  refine ⟨?_, hv 100⟩
  intro he
  rw [he] at hf
  cases hf

/-- C9, counterexample.  One instrument trading on days 0 and 61 only: the
`backtest.py` loop (non-Baseline policy, `time_stop_days = 60`) buys on day
0 and already fires the time stop on day 61 — the position was held for just
one further trading session, not for 60 sessions, because `days_held` is the
calendar-day difference `(current_date - position['date']).days`. -/
theorem C9_counterexample :
    (BT.simLoop "Advanced" 60 [frameC9] 10000 [0, 61]).position = none ∧
    (BT.simLoop "Advanced" 60 [frameC9] 10000 [0, 61]).trade_log =
      [{ kind := TradeKind.SELL, ticker := 7, pnl := 200 }] ∧
    (BT.simLoop "Advanced" 60 [frameC9] 10000 [0, 61]).cash = 10200 := by
  norm_num [BT.simLoop, List.foldl, BT.step, BT.evalExit, BT.updatePos,
    BT.collectCandidates, BT.isCandidate, BSim.spyPass, pickBest, pySort, pyInsert,
    candLt, keyLt, frameOf, Frame.rowOn, frameC9, rowBuy, rowStop, List.find?,
    show ("Advanced" = "Baseline") = False from by decide]

/-- C9, amended: under a non-Baseline policy, when no price-based exit
(profit target, trailing stop, initial stop) applies on the evaluated bar,
the exit decision is the time stop selling at that day's close exactly when
the CALENDAR-day difference between the current date and the entry date
reaches `time_stop_days`; `days_held` is not a count of trading sessions. -/
theorem C9_time_stop_on_calendar_days
    (strategy_name : String) (tsd : ℤ) (pos : BT.Position) (row : Row) (dh : ℤ)
    (hB : strategy_name ≠ "Baseline")
    (hT : row.high < (BT.updatePos pos row).entry_price * 1.15)
    (hTr : ¬((BT.updatePos pos row).trailing_active = true ∧
        row.low ≤ (BT.updatePos pos row).highest_price * 0.90))
    (hIn : ¬((BT.updatePos pos row).trailing_active = false ∧
        row.low ≤ (BT.updatePos pos row).entry_price * 0.85)) :
    ((BT.evalExit strategy_name tsd pos row dh).2 = some (Reason.timeStop, row.close) ↔
      tsd ≤ dh) := by
  unfold BT.evalExit
  rw [if_neg hB]
  dsimp only
  rw [if_neg (not_le.mpr hT), if_neg hTr, if_neg hIn]
  by_cases hd : tsd ≤ dh
  · simp [hd]
  · simp [hd]

/-- Witness for `C9_time_stop_on_calendar_days` on the concrete position and
bar of the counterexample run. -/
theorem C9_witness :
    (BT.evalExit "Advanced" 60 posC9 rowStop 61).2 = some (Reason.timeStop, rowStop.close) :=
  (C9_time_stop_on_calendar_days "Advanced" 60 posC9 rowStop 61 (by decide)
    (by norm_num [BT.updatePos, posC9, rowStop])
    (by norm_num [BT.updatePos, posC9, rowStop])
    (by norm_num [BT.updatePos, posC9, rowStop])).mpr (by decide)

/-- C10: every executed SELL prices the trade at the fired rule's trigger
level, not at an observed market price: the profit target sells at exactly
`entry_price * 1.15` (whatever the day's high), the trailing stop at exactly
`highest_price * 0.90` (with the high-water mark already updated by the
day's high, whatever the day's low), the initial stop at exactly
`entry_price * 0.85`, and only the time stop sells at the day's close.
Stated for the exit evaluation of both simulation scripts (the loops pass
these prices straight into `revenue = shares * sell_price`). -/
theorem C10_sell_price_is_trigger_level :
    (∀ (strategy_name : String) (pos : BSim.Position) (row : Row) (dh : ℤ)
        (r : Reason) (p : ℚ),
        BSim.evalExit strategy_name pos row dh = some (r, p) →
          (r = Reason.target → p = pos.entry_price * 1.15) ∧
          (r = Reason.trailing → p = pos.highest_price * 0.90) ∧
          (r = Reason.timeStop → p = row.close)) ∧
    (∀ (strategy_name : String) (tsd : ℤ) (pos : BT.Position) (row : Row) (dh : ℤ)
        (r : Reason) (p : ℚ),
        (BT.evalExit strategy_name tsd pos row dh).2 = some (r, p) →
          (r = Reason.target → p = pos.entry_price * 1.15) ∧
          (r = Reason.trailing → p = (BT.updatePos pos row).highest_price * 0.90) ∧
          (r = Reason.initialStop → p = pos.entry_price * 0.85) ∧
          (r = Reason.timeStop → p = row.close)) := by
  constructor
  · intro strategy_name pos row dh r p h
    unfold BSim.evalExit at h
    split_ifs at h
    all_goals cases h
    all_goals exact ⟨fun hr => by cases hr <;> rfl, fun hr => by cases hr <;> rfl,
      fun hr => by cases hr <;> rfl⟩
  · intro strategy_name tsd pos row dh r p h
    unfold BT.evalExit at h
    dsimp only at h
    rw [BT.updatePos_entry_price] at h
    split_ifs at h
    all_goals dsimp only at h
    all_goals cases h
    all_goals exact ⟨fun hr => by cases hr <;> rfl, fun hr => by cases hr <;> rfl,
      fun hr => by cases hr <;> rfl, fun hr => by cases hr <;> rfl⟩

/-- Witness for `C10_sell_price_is_trigger_level`: a Baseline profit-target
exit at entry 100 and high 120 sells at exactly 115. -/
theorem C10_witness :
    BSim.evalExit "Baseline" posB rowB 0 = some (Reason.target, 115) ∧
    (115 : ℚ) = posB.entry_price * 1.15 :=
  ⟨by norm_num [BSim.evalExit, posB, rowB],
    (C10_sell_price_is_trigger_level.1 "Baseline" posB rowB 0 Reason.target 115
      (by norm_num [BSim.evalExit, posB, rowB])).1 rfl⟩

/-! RSI lemmas (claim C8). -/

/-- In a strictly rising close series every in-range diff is positive. -/
theorem riseAt_pos_of_chain {closes : List ℚ}
    (hch : List.Chain' (fun a b => a < b) closes) {j : Nat}
    (hj1 : 1 ≤ j) (hjlen : j < closes.length) : 0 < riseAt closes j := by
  unfold riseAt
  have h1 : j - 1 < closes.length := by omega
  rw [List.getD_eq_getElem?_getD, List.getElem?_eq_getElem hjlen,
    List.getD_eq_getElem?_getD, List.getElem?_eq_getElem h1]
  simp only [Option.getD_some]
  have hstep := List.chain'_iff_get.mp hch (j - 1) (by omega)
  rw [List.get_eq_getElem, List.get_eq_getElem] at hstep
  have hj : j - 1 + 1 = j := by omega
  simp only [hj] at hstep
  linarith

/-- In a constant close series every in-range diff is zero. -/
theorem riseAt_replicate (c : ℚ) {n j : Nat} (hj1 : 1 ≤ j) (hjn : j < n) :
    riseAt (List.replicate n c) j = 0 := by
  unfold riseAt
  have h1 : j - 1 < n := by omega
  rw [List.getD_eq_getElem?_getD, List.getD_eq_getElem?_getD,
    List.getElem?_eq_getElem (by simpa using hjn),
    List.getElem?_eq_getElem (by simpa using h1)]
  simp

/-- A constant close series has zero trailing average loss and gain, so the
source's `0 / 0` ratio makes the RSI undefined (`NaN`), not 100 — at every
defined index, the first being 13. -/
theorem rsi_flat (c : ℚ) (n i : Nat) (h13 : 13 ≤ i) (hlen : i < n) :
    avgLossAt (List.replicate n c) i = some 0 ∧
      rsiAt (List.replicate n c) i = none := by
  have hlen' : i < (List.replicate n c).length := by simpa using hlen
  have hloss : (lossWindow (List.replicate n c) i).sum = 0 := by
    apply List.sum_eq_zero
    intro x hx
    rw [lossWindow, List.mem_map] at hx
    obtain ⟨k, hk, rfl⟩ := hx
    rw [List.mem_range] at hk
    by_cases hj : i - 13 + k = 0
    · rw [lossAt, if_pos hj]
    · rw [lossAt, if_neg hj]
      rw [riseAt_replicate c (by omega) (by omega)]
      simp
  have hgain : (gainWindow (List.replicate n c) i).sum = 0 := by
    apply List.sum_eq_zero
    intro x hx
    rw [gainWindow, List.mem_map] at hx
    obtain ⟨k, hk, rfl⟩ := hx
    rw [List.mem_range] at hk
    by_cases hj : i - 13 + k = 0
    · rw [gainAt, if_pos hj]
    · rw [gainAt, if_neg hj]
      rw [riseAt_replicate c (by omega) (by omega)]
      simp
  have hl : avgLossAt (List.replicate n c) i = some 0 := by
    unfold avgLossAt
    rw [if_pos ⟨h13, hlen'⟩, hloss, zero_div]
  have hg : avgGainAt (List.replicate n c) i = some 0 := by
    unfold avgGainAt
    rw [if_pos ⟨h13, hlen'⟩, hgain, zero_div]
  refine ⟨hl, ?_⟩
  unfold rsiAt
  rw [hl, hg]
  simp

/-- C8, counterexample.  The flat 20-session series has `avgLoss = 0` at
index 13, the first index where the 14-session rolling means are defined
(the position-0 diff `NaN` is masked to 0 by `where`), yet the RSI there is
undefined (`0 / 0` gives `NaN` in the source), not the claimed saturation
at 100; there is also no explicit guard of the division in the code. -/
theorem C8_counterexample :
    avgLossAt closesFlat 13 = some 0 ∧ rsiAt closesFlat 13 ≠ some 100 := by
  have h := rsi_flat 5 20 13 (by norm_num) (by norm_num)
  exact ⟨h.1, by rw [closesFlat, h.2]; intro hx; cases hx⟩

/-- C8, amended: the RSI computation is total (no arithmetic fault): when
the trailing average loss is zero and the average gain is nonzero, RSI is
exactly 100 (the float ratio is `inf`); when both are zero the RSI is
undefined (`NaN`), as on a flat series.  A STRICTLY increasing 20-session
close series yields RSI = 100 at every defined index, in particular at
index 13, the computation's first defined value (the position-0 diff is
masked to 0, so the rolling means fill from the 14th session on). -/
theorem C8_rsi_saturation :
    (∀ (closes : List ℚ) (i : Nat) (g : ℚ),
        avgLossAt closes i = some 0 → avgGainAt closes i = some g → g ≠ 0 →
        rsiAt closes i = some 100) ∧
    (∀ closes : List ℚ, List.Chain' (fun a b => a < b) closes →
        ∀ i : Nat, 13 ≤ i → i < closes.length → rsiAt closes i = some 100) := by
  constructor
  · intro closes i g hl hg hgne
    unfold rsiAt
    rw [hl, hg]
    dsimp only
    rw [if_pos rfl, if_neg hgne]
  · intro closes hch i h13 hlen
    have hloss : (lossWindow closes i).sum = 0 := by
      apply List.sum_eq_zero
      intro x hx
      rw [lossWindow, List.mem_map] at hx
      obtain ⟨k, hk, rfl⟩ := hx
      rw [List.mem_range] at hk
      by_cases hj : i - 13 + k = 0
      · rw [lossAt, if_pos hj]
      · rw [lossAt, if_neg hj]
        have hr := riseAt_pos_of_chain hch (j := i - 13 + k) (by omega) (by omega)
        have hneg : -(riseAt closes (i - 13 + k)) ≤ 0 := by linarith
        simp [max_eq_right hneg]
    have hnn : ∀ x ∈ gainWindow closes i, 0 ≤ x := by
      intro x hx
      rw [gainWindow, List.mem_map] at hx
      obtain ⟨k, hk, rfl⟩ := hx
      by_cases hj : i - 13 + k = 0
      · rw [gainAt, if_pos hj]
      · rw [gainAt, if_neg hj]
        exact le_max_right _ _
    have hmem : gainAt closes i ∈ gainWindow closes i := by
      rw [gainWindow, List.mem_map]
      refine ⟨13, ?_, ?_⟩
      · rw [List.mem_range]
        norm_num
      · congr 1
        omega
    have hpos : 0 < gainAt closes i := by
      rw [gainAt, if_neg (by omega)]
      have hr := riseAt_pos_of_chain hch (j := i) (by omega) hlen
      rw [max_eq_left (le_of_lt hr)]
      exact hr
    have hgain : 0 < (gainWindow closes i).sum :=
      lt_of_lt_of_le hpos (List.single_le_sum hnn _ hmem)
    have hl : avgLossAt closes i = some 0 := by
      unfold avgLossAt
      rw [if_pos ⟨h13, hlen⟩, hloss, zero_div]
    have hg : avgGainAt closes i = some ((gainWindow closes i).sum / 14) := by
      unfold avgGainAt
      rw [if_pos ⟨h13, hlen⟩]
    unfold rsiAt
    rw [hl, hg]
    dsimp only
    rw [if_pos rfl, if_neg (by positivity)]

/-- Witness for `C8_rsi_saturation` on the strictly increasing 20-session
series, at index 13: the first defined value of `calculate_rsi`. -/
theorem C8_witness : rsiAt closesUp 13 = some 100 :=
  C8_rsi_saturation.2 closesUp (by norm_num [closesUp, List.chain'_cons]) 13 (by norm_num)
    (by decide)

/-! Trade-log shape and sorting helper lemmas (claims C1, C2, C6, C7). -/

theorem shapeFrom_append (b : Bool) (l : List TradeRecord) (r : TradeRecord) :
    shapeFrom b (l ++ [r]) =
      (shapeFrom b l &&
        (if expectAfter b l then decide (r.kind = TradeKind.BUY)
         else decide (r.kind = TradeKind.SELL))) := by
  induction l generalizing b with
  | nil => cases b <;> simp [shapeFrom, expectAfter]
  | cons x xs ih => simp [shapeFrom, expectAfter, ih, Bool.and_assoc]

theorem expectAfter_append (b : Bool) (l : List TradeRecord) (r : TradeRecord) :
    expectAfter b (l ++ [r]) = !(expectAfter b l) := by
  induction l generalizing b with
  | nil => rfl
  | cons x xs ih => simp [expectAfter, ih]

theorem frameOf_mem {frames : List Frame} {t : Nat} {f : Frame}
    (h : frameOf frames t = some f) : f ∈ frames := by
  unfold frameOf at h
  exact List.mem_of_find?_eq_some h

theorem rowOn_mem {f : Frame} {d : Nat} {row : Row} (h : f.rowOn d = some row) :
    ∃ p ∈ f.rows, p.2 = row := by
  unfold Frame.rowOn at h
  cases hf : f.rows.find? (fun p => decide (p.1 = d)) with
  | none => rw [hf] at h; cases h
  | some p =>
    rw [hf] at h
    cases h
    exact ⟨p, List.mem_of_find?_eq_some hf, rfl⟩

theorem rowOn_pos {frames : List Frame} (hF : FramesPos frames) {f : Frame}
    (hf : f ∈ frames) {d : Nat} {row : Row} (h : f.rowOn d = some row) :
    0 < row.high ∧ 0 < row.close := by
  obtain ⟨p, hp, hpr⟩ := rowOn_mem h
  have hx := hF f hf p hp
  rw [hpr] at hx
  exact hx

theorem mem_pyInsert {lt : α → α → Bool} {x y : α} {l : List α} :
    y ∈ pyInsert lt x l ↔ y = x ∨ y ∈ l := by
  induction l with
  | nil => simp [pyInsert]
  | cons a as ih =>
    unfold pyInsert
    split
    · rw [List.mem_cons, ih, List.mem_cons]
      tauto
    · simp only [List.mem_cons]

theorem mem_pySort {lt : α → α → Bool} {l : List α} {y : α} :
    y ∈ pySort lt l ↔ y ∈ l := by
  induction l with
  | nil => simp [pySort]
  | cons a as ih =>
    unfold pySort
    rw [mem_pyInsert]
    simp [ih]

theorem length_pyInsert (lt : α → α → Bool) (x : α) (l : List α) :
    (pyInsert lt x l).length = l.length + 1 := by
  induction l with
  | nil => rfl
  | cons a as ih =>
    unfold pyInsert
    split <;> simp [ih]

theorem length_pySort (lt : α → α → Bool) (l : List α) :
    (pySort lt l).length = l.length := by
  induction l with
  | nil => rfl
  | cons a as ih =>
    unfold pySort
    rw [length_pyInsert, ih]
    rfl

theorem pickBest_mem {l : List Cand} {c : Cand} (h : pickBest l = some c) : c ∈ l := by
  unfold pickBest at h
  cases hs : pySort candLt l with
  | nil => rw [hs] at h; cases h
  | cons a as =>
    rw [hs] at h
    rw [List.head?_cons] at h
    have hac : a = c := Option.some.inj h
    subst hac
    exact mem_pySort.mp (hs ▸ List.mem_cons_self a as)

theorem collect_price_pos {strategy_name : String} {frames : List Frame} {d : Nat}
    (hF : FramesPos frames) {c : Cand}
    (hc : c ∈ BSim.collectCandidates strategy_name frames d) : 0 < c.price := by
  unfold BSim.collectCandidates at hc
  rw [List.mem_filterMap] at hc
  obtain ⟨f, hf, heq⟩ := hc
  cases hr : f.rowOn d with
  | none => rw [hr] at heq; cases heq
  | some row =>
    rw [hr] at heq
    dsimp only at heq
    split at heq
    · cases heq
      exact (rowOn_pos hF hf hr).2
    · cases heq

theorem BSim.evalExit_price_pos {strategy_name : String} {pos : BSim.Position} {row : Row}
    {dh : ℤ} {rp : Reason × ℚ} (hE : 0 < pos.entry_price) (hH : 0 < pos.highest_price)
    (hC : 0 < row.close) (h : BSim.evalExit strategy_name pos row dh = some rp) :
    0 < rp.2 := by
  unfold BSim.evalExit at h
  split_ifs at h
  all_goals cases h
  · exact mul_pos hE (by norm_num)
  · exact mul_pos hE (by norm_num)
  · exact mul_pos hH (by norm_num)
  · exact hC

theorem sortedDates_pairwise (frames : List Frame) :
    (sortedDates frames).Pairwise (fun a b => a < b) := by
  have hs : (sortedDates frames).Sorted (fun a b => a ≤ b) :=
    List.sorted_insertionSort _ _
  have hn : (sortedDates frames).Nodup :=
    (List.perm_insertionSort _ _).nodup_iff.mpr (List.nodup_dedup _)
  exact hs.lt_of_le hn

theorem buildRows_pos {spy : List (Nat × SpyRow)} {refFn : Option ℚ → Option ℚ}
    {bars : List (Nat × Bar)} (hb : ∀ q ∈ bars, 0 < q.2.high ∧ 0 < q.2.close)
    {p : Nat × Row} (hp : p ∈ buildRows spy refFn bars) :
    0 < p.2.high ∧ 0 < p.2.close := by
  simp only [buildRows] at hp
  rw [List.mem_map] at hp
  obtain ⟨ip, hip, heq⟩ := hp
  have h2 : ip.2 ∈ bars := (List.of_mem_zip hip).2
  have hx := hb ip.2 h2
  rw [← heq]
  exact hx

theorem BSim.prefetch_pos (spy : List (Nat × SpyRow)) (stocks : List RawStock)
    (hP : RawPos stocks) : FramesPos (BSim.prefetch spy stocks) := by
  intro f hf p hp
  unfold BSim.prefetch at hf
  rw [List.mem_filterMap] at hf
  obtain ⟨st, hst, heq⟩ := hf
  cases ht : st.target with
  | none => rw [ht] at heq; cases heq
  | some t =>
    rw [ht] at heq
    dsimp only at heq
    split at heq
    · cases heq
    · cases heq
      exact buildRows_pos (hP st hst) hp

/-- One loop iteration preserves the invariant, producing only records dated
on the processed date. -/
theorem BSim.step_inv {strategy_name : String} {frames : List Frame} {s : BSim.SimState}
    {d : Nat} (hF : FramesPos frames) (hI : BSim.Inv s)
    (hd : ∀ r ∈ s.trade_log, r.date < d) :
    BSim.Inv (BSim.step strategy_name frames s d) ∧
      ∀ r ∈ (BSim.step strategy_name frames s d).trade_log, r.date ≤ d := by
  obtain ⟨hok, hshape, hexp, hpw⟩ := hI
  unfold BSim.step
  cases hp : s.position with
  | none =>
    have hcash : 0 < s.cash := by
      have h2 := hok
      simp only [BSim.stateOk, hp] at h2
      exact h2
    dsimp only
    cases hb : pickBest (BSim.collectCandidates strategy_name frames d) with
    | none =>
      exact ⟨⟨hok, hshape, hexp, hpw⟩, fun r hr => le_of_lt (hd r hr)⟩
    | some c =>
      have hcp : 0 < c.price := collect_price_pos hF (pickBest_mem hb)
      have hexp' : expectAfter true s.trade_log = true := by rw [hexp, hp]; rfl
      constructor
      · refine ⟨?_, ?_, ?_, ?_⟩
        · simp only [BSim.stateOk]
          exact ⟨by trivial, div_pos hcash hcp, hcp, hcp⟩
        · rw [shapeFrom_append, hshape, hexp']
          rfl
        · rw [expectAfter_append, hexp']
          rfl
        · rw [List.pairwise_append]
          refine ⟨hpw, List.pairwise_singleton _ _, ?_⟩
          intro a ha b hb2
          rw [List.mem_singleton] at hb2
          rw [hb2]
          exact hd a ha
      · intro r hr
        rcases List.mem_append.mp hr with h | h
        · exact le_of_lt (hd r h)
        · rw [List.mem_singleton] at h
          rw [h]
  | some pos0 =>
    have hokS : s.cash = 0 ∧ 0 < pos0.shares ∧ 0 < pos0.entry_price ∧
        0 < pos0.highest_price := by
      have h2 := hok
      simp only [BSim.stateOk, hp] at h2
      exact h2
    dsimp only
    cases hfo : frameOf frames pos0.ticker with
    | none =>
      exact ⟨⟨hok, hshape, hexp, hpw⟩, fun r hr => le_of_lt (hd r hr)⟩
    | some f =>
      dsimp only
      cases hro : f.rowOn d with
      | none =>
        exact ⟨⟨hok, hshape, hexp, hpw⟩, fun r hr => le_of_lt (hd r hr)⟩
      | some row =>
        have hrow := rowOn_pos hF (frameOf_mem hfo) hro
        have hsh : 0 < (BSim.updateHighest pos0 row.high).shares := by
          rw [BSim.updateHighest_shares]
          exact hokS.2.1
        have hen : 0 < (BSim.updateHighest pos0 row.high).entry_price := by
          rw [BSim.updateHighest_entry_price]
          exact hokS.2.2.1
        have hhi : 0 < (BSim.updateHighest pos0 row.high).highest_price :=
          BSim.updateHighest_pos pos0 row.high hokS.2.2.2
        have hexp' : expectAfter true s.trade_log = false := by rw [hexp, hp]; rfl
        dsimp only
        cases he : BSim.evalExit strategy_name (BSim.updateHighest pos0 row.high) row
            ((d : ℤ) - ((BSim.updateHighest pos0 row.high).date : ℤ)) with
        | none =>
          constructor
          · refine ⟨?_, hshape, ?_, hpw⟩
            · simp only [BSim.stateOk]
              exact ⟨hokS.1, hsh, hen, hhi⟩
            · rw [hexp, hp]
              rfl
          · intro r hr
            exact le_of_lt (hd r hr)
        | some rp =>
          have hpp : 0 < rp.2 := BSim.evalExit_price_pos hen hhi hrow.2 he
          constructor
          · refine ⟨?_, ?_, ?_, ?_⟩
            · simp only [BSim.stateOk]
              exact mul_pos hsh hpp
            · rw [shapeFrom_append, hshape, hexp']
              rfl
            · rw [expectAfter_append, hexp']
              rfl
            · rw [List.pairwise_append]
              refine ⟨hpw, List.pairwise_singleton _ _, ?_⟩
              intro a ha b hb2
              rw [List.mem_singleton] at hb2
              rw [hb2]
              exact hd a ha
          · intro r hr
            rcases List.mem_append.mp hr with h | h
            · exact le_of_lt (hd r h)
            · rw [List.mem_singleton] at h
              rw [h]
              simp [BSim.sellRecord]

/-- The invariant holds after folding the loop over any strictly increasing
calendar whose dates all postdate the log produced so far. -/
theorem BSim.loop_inv (strategy_name : String) (frames : List Frame)
    (hF : FramesPos frames) :
    ∀ (dates : List Nat) (s : BSim.SimState), dates.Pairwise (fun a b => a < b) →
      BSim.Inv s → (∀ d ∈ dates, ∀ r ∈ s.trade_log, r.date < d) →
      BSim.Inv (List.foldl (BSim.step strategy_name frames) s dates) := by
  intro dates
  induction dates with
  | nil => exact fun s _ hI _ => hI
  | cons d ds ih =>
    intro s hpw hI hd
    rw [List.foldl_cons]
    obtain ⟨hI', hbound⟩ := BSim.step_inv hF hI (hd d (List.mem_cons_self d ds))
    refine ih _ (List.Pairwise.of_cons hpw) hI' ?_
    intro d' hd' r hr
    have h1 : r.date ≤ d := hbound r hr
    have h2 : d < d' := (List.pairwise_cons.mp hpw).1 d' hd'
    omega

/-- `finalize` returns the trade log unchanged. -/
theorem BSim.finalize_snd (frames : List Frame) (s : BSim.SimState) :
    (BSim.finalize frames s).2 = s.trade_log := by
  obtain ⟨c, pos, log⟩ := s
  cases pos with
  | none => rfl
  | some p =>
    unfold BSim.finalize
    dsimp only
    cases frameOf frames p.ticker with
    | none => rfl
    | some f =>
      dsimp only
      cases f.rows.getLast? with
      | none => rfl
      | some pr => rfl

/-- Under the loop invariant and positive frames, the final valuation is
nonnegative. -/
theorem BSim.finalize_fst_nonneg (frames : List Frame) (s : BSim.SimState)
    (hF : FramesPos frames) (hok : BSim.stateOk s) :
    0 ≤ (BSim.finalize frames s).1 := by
  obtain ⟨c, pos, log⟩ := s
  cases pos with
  | none =>
    simp only [BSim.stateOk] at hok
    exact le_of_lt hok
  | some p =>
    simp only [BSim.stateOk] at hok
    unfold BSim.finalize
    dsimp only
    cases hfo : frameOf frames p.ticker with
    | none => exact le_refl 0
    | some f =>
      dsimp only
      cases hlast : f.rows.getLast? with
      | none => exact le_refl 0
      | some pr =>
        have hmem : pr ∈ f.rows := List.mem_of_getLast?_eq_some hlast
        have hpos := hF f (frameOf_mem hfo) pr hmem
        exact le_of_lt (mul_pos hok.2.1 hpos.2)

/-- C1: in `backtest_simulation.run_portfolio_simulation`, for positive
starting capital (and well-formed positive market data), after every prefix
of the simulated calendar the state is fully liquid or fully invested:
`cash > 0` exactly when no position is open, and an open position forces
`cash = 0`.  Every BUY and every SELL preserves this (the prefixes traverse
the loop one date at a time). -/
theorem C1_cash_xor_position (stocks : List RawStock) (strategy_name : String)
    (spy : List (Nat × SpyRow)) (start_capital : ℚ) (n : Nat)
    (hc : 0 < start_capital) (hP : RawPos stocks) :
    (0 < (BSim.simLoop strategy_name (BSim.prefetch spy stocks) start_capital
          ((sortedDates (BSim.prefetch spy stocks)).take n)).cash ↔
        (BSim.simLoop strategy_name (BSim.prefetch spy stocks) start_capital
          ((sortedDates (BSim.prefetch spy stocks)).take n)).position = none) ∧
    ∀ p, (BSim.simLoop strategy_name (BSim.prefetch spy stocks) start_capital
          ((sortedDates (BSim.prefetch spy stocks)).take n)).position = some p →
        (BSim.simLoop strategy_name (BSim.prefetch spy stocks) start_capital
          ((sortedDates (BSim.prefetch spy stocks)).take n)).cash = 0 := by
  have hF := BSim.prefetch_pos spy stocks hP
  have hpw : ((sortedDates (BSim.prefetch spy stocks)).take n).Pairwise
      (fun a b => a < b) :=
    (sortedDates_pairwise (BSim.prefetch spy stocks)).sublist (List.take_sublist _ _)
  have hInv0 : BSim.Inv ⟨start_capital, none, []⟩ :=
    ⟨by simpa [BSim.stateOk] using hc, rfl, rfl, List.Pairwise.nil⟩
  have h := BSim.loop_inv strategy_name (BSim.prefetch spy stocks) hF _ _ hpw hInv0 (by intro d hd r hr; cases hr)
  have hok : BSim.stateOk (BSim.simLoop strategy_name (BSim.prefetch spy stocks)
      start_capital ((sortedDates (BSim.prefetch spy stocks)).take n)) := h.1
  constructor
  · cases hq : (BSim.simLoop strategy_name (BSim.prefetch spy stocks) start_capital
        ((sortedDates (BSim.prefetch spy stocks)).take n)).position with
    | none =>
      simp only [BSim.stateOk, hq] at hok
      exact ⟨fun _ => rfl, fun _ => hok⟩
    | some p =>
      simp only [BSim.stateOk, hq] at hok
      constructor
      · intro hlt
        rw [hok.1] at hlt
        exact absurd hlt (lt_irrefl 0)
      · intro he
        cases he
  · intro p hq
    simp only [BSim.stateOk, hq] at hok
    exact hok.1

/-- Witness for `C1_cash_xor_position` on the empty universe with capital 1. -/
theorem C1_witness :
    0 < (BSim.simLoop "Baseline" (BSim.prefetch [] []) 1
          ((sortedDates (BSim.prefetch [] [])).take 0)).cash ↔
      (BSim.simLoop "Baseline" (BSim.prefetch [] []) 1
          ((sortedDates (BSim.prefetch [] [])).take 0)).position = none :=
  (C1_cash_xor_position [] "Baseline" [] 1 0 (by norm_num) (by intro st h; cases h)).1

/-- C2: every run of `backtest_simulation.run_portfolio_simulation` on
positive capital and well-formed positive market data returns a nonnegative
final value, and a trade log that alternates BUY, SELL, BUY, SELL, ...
(exactly one SELL per completed round trip, at most one trailing unmatched
BUY) with strictly increasing dates (chronological, non-overlapping). -/
theorem C2_final_value_and_log_shape (stocks : List RawStock) (strategy_name : String)
    (spy : List (Nat × SpyRow)) (start_capital : ℚ)
    (hc : 0 < start_capital) (hP : RawPos stocks) :
    0 ≤ (BSim.run_portfolio_simulation stocks strategy_name spy start_capital).1 ∧
    shapeFrom true (BSim.run_portfolio_simulation stocks strategy_name spy start_capital).2
      = true ∧
    (BSim.run_portfolio_simulation stocks strategy_name spy start_capital).2.Pairwise
      (fun a b => a.date < b.date) := by
  have hF := BSim.prefetch_pos spy stocks hP
  have hInv0 : BSim.Inv ⟨start_capital, none, []⟩ :=
    ⟨by simpa [BSim.stateOk] using hc, rfl, rfl, List.Pairwise.nil⟩
  have h := BSim.loop_inv strategy_name (BSim.prefetch spy stocks) hF (sortedDates (BSim.prefetch spy stocks))
    ⟨start_capital, none, []⟩ (sortedDates_pairwise _) hInv0
    (by intro d hd r hr; cases hr)
  obtain ⟨hok, hshape, hexp, hpw⟩ := h
  have hrun : BSim.run_portfolio_simulation stocks strategy_name spy start_capital =
      BSim.finalize (BSim.prefetch spy stocks)
        (BSim.simLoop strategy_name (BSim.prefetch spy stocks) start_capital
          (sortedDates (BSim.prefetch spy stocks))) := rfl
  rw [hrun, BSim.finalize_snd]
  exact ⟨BSim.finalize_fst_nonneg _ _ hF hok, hshape, hpw⟩

/-- Witness for `C2_final_value_and_log_shape` on the empty universe. -/
theorem C2_witness :
    0 ≤ (BSim.run_portfolio_simulation [] "Baseline" [] 1).1 ∧
    shapeFrom true (BSim.run_portfolio_simulation [] "Baseline" [] 1).2 = true ∧
    (BSim.run_portfolio_simulation [] "Baseline" [] 1).2.Pairwise
      (fun a b => a.date < b.date) :=
  C2_final_value_and_log_shape [] "Baseline" [] 1 (by norm_num) (by intro st h; cases h)

/-- C7: in every run of `backtest_simulation.run_portfolio_simulation` (on
positive capital and well-formed positive data), no SELL record shares its
date with any BUY record: after a SELL the loop `continue`s to the next
date, so an exit and an entry never happen on the same day. -/
theorem C7_no_same_day_sell_and_buy (stocks : List RawStock) (strategy_name : String)
    (spy : List (Nat × SpyRow)) (start_capital : ℚ)
    (hc : 0 < start_capital) (hP : RawPos stocks) :
    (BSim.run_portfolio_simulation stocks strategy_name spy start_capital).2.Pairwise
      (fun r1 r2 =>
        (r1.kind = TradeKind.SELL → r2.kind = TradeKind.BUY → r1.date ≠ r2.date) ∧
        (r1.kind = TradeKind.BUY → r2.kind = TradeKind.SELL → r1.date ≠ r2.date)) := by
  have hF := BSim.prefetch_pos spy stocks hP
  have hInv0 : BSim.Inv ⟨start_capital, none, []⟩ :=
    ⟨by simpa [BSim.stateOk] using hc, rfl, rfl, List.Pairwise.nil⟩
  have h := BSim.loop_inv strategy_name (BSim.prefetch spy stocks) hF (sortedDates (BSim.prefetch spy stocks))
    ⟨start_capital, none, []⟩ (sortedDates_pairwise _) hInv0
    (by intro d hd r hr; cases hr)
  have hrun : (BSim.run_portfolio_simulation stocks strategy_name spy start_capital).2 =
      (BSim.simLoop strategy_name (BSim.prefetch spy stocks) start_capital
        (sortedDates (BSim.prefetch spy stocks))).trade_log :=
    BSim.finalize_snd _ _
  rw [hrun]
  have hpw := h.2.2.2
  exact hpw.imp (fun hab => ⟨fun _ _ => ne_of_lt hab, fun _ _ => ne_of_lt hab⟩)

/-- Witness for `C7_no_same_day_sell_and_buy` on the empty universe. -/
theorem C7_witness :
    (BSim.run_portfolio_simulation [] "Baseline" [] 1).2.Pairwise
      (fun r1 r2 =>
        (r1.kind = TradeKind.SELL → r2.kind = TradeKind.BUY → r1.date ≠ r2.date) ∧
        (r1.kind = TradeKind.BUY → r2.kind = TradeKind.SELL → r1.date ≠ r2.date)) :=
  C7_no_same_day_sell_and_buy [] "Baseline" [] 1 (by norm_num) (by intro st h; cases h)

/-! Candidate-selection lemmas (claim C6). -/

theorem find?_congr_mem {p q : α → Bool} : ∀ {l : List α}, (∀ a ∈ l, p a = q a) →
    l.find? p = l.find? q := by
  intro l
  induction l with
  | nil => intro _; rfl
  | cons a as ih =>
    intro h
    have ha := h a (List.mem_cons_self a as)
    by_cases hp : p a = true
    · rw [List.find?_cons_of_pos _ hp, List.find?_cons_of_pos _ (ha ▸ hp)]
    · rw [List.find?_cons_of_neg _ hp,
        List.find?_cons_of_neg _ (fun hx => hp (by rw [ha]; exact hx))]
      exact ih (fun b hb => h b (List.mem_cons_of_mem _ hb))

theorem all_congr_mem {p q : α → Bool} : ∀ {l : List α}, (∀ a ∈ l, p a = q a) →
    l.all p = l.all q := by
  intro l
  induction l with
  | nil => intro _; rfl
  | cons a as ih =>
    intro h
    rw [List.all_cons, List.all_cons, h a (List.mem_cons_self a as),
      ih (fun b hb => h b (List.mem_cons_of_mem _ hb))]

theorem pyInsert_congr {lt lt' : α → α → Bool} {x : α} : ∀ {l : List α},
    (∀ a ∈ x :: l, ∀ b ∈ x :: l, lt a b = lt' a b) →
    pyInsert lt x l = pyInsert lt' x l := by
  intro l
  induction l with
  | nil => intro _; rfl
  | cons a as ih =>
    intro h
    have hax : lt a x = lt' a x :=
      h a (List.mem_cons_of_mem _ (List.mem_cons_self a as)) x (List.mem_cons_self x _)
    unfold pyInsert
    rw [hax]
    split
    · have hsub : ∀ b ∈ x :: as, ∀ c ∈ x :: as, lt b c = lt' b c := by
        intro b hb c hc
        refine h b ?_ c ?_
        · rcases List.mem_cons.mp hb with h1 | h1
          · rw [h1]; exact List.mem_cons_self x _
          · exact List.mem_cons_of_mem _ (List.mem_cons_of_mem _ h1)
        · rcases List.mem_cons.mp hc with h1 | h1
          · rw [h1]; exact List.mem_cons_self x _
          · exact List.mem_cons_of_mem _ (List.mem_cons_of_mem _ h1)
      rw [ih hsub]
    · rfl

theorem pySort_congr {lt lt' : α → α → Bool} : ∀ {l : List α},
    (∀ a ∈ l, ∀ b ∈ l, lt a b = lt' a b) → pySort lt l = pySort lt' l := by
  intro l
  induction l with
  | nil => intro _; rfl
  | cons x xs ih =>
    intro h
    unfold pySort
    rw [ih (fun a ha b hb => h a (List.mem_cons_of_mem _ ha) b (List.mem_cons_of_mem _ hb))]
    apply pyInsert_congr
    intro a ha b hb
    refine h a ?_ b ?_
    · rcases List.mem_cons.mp ha with h1 | h1
      · rw [h1]; exact List.mem_cons_self x xs
      · exact List.mem_cons_of_mem _ (mem_pySort.mp h1)
    · rcases List.mem_cons.mp hb with h1 | h1
      · rw [h1]; exact List.mem_cons_self x xs
      · exact List.mem_cons_of_mem _ (mem_pySort.mp h1)

/-- The head of the stable ascending sort by a rational key is the FIRST
element of the list attaining the minimal key: Python's
`candidates.sort(...); candidates[0]` is a first-minimum selection. -/
theorem pySort_head_key (k : α → ℚ) : ∀ l : List α,
    (pySort (fun a b => decide (k a < k b)) l).head? =
      l.find? (fun c => l.all (fun c2 => !(decide (k c2 < k c)))) := by
  intro l
  induction l with
  | nil => rfl
  | cons x xs ih =>
    unfold pySort
    cases hS : pySort (fun a b => decide (k a < k b)) xs with
    | nil =>
      have hxs : xs = [] := by
        have hlen := length_pySort (fun a b => decide (k a < k b)) xs
        rw [hS] at hlen
        exact List.eq_nil_of_length_eq_zero hlen.symm
      subst hxs
      rw [show pyInsert (fun a b => decide (k a < k b)) x [] = [x] from rfl]
      rw [List.head?_cons, List.find?_cons_of_pos _ (by simp)]
    | cons m t =>
      have hmfind : xs.find? (fun c => xs.all (fun c2 => !(decide (k c2 < k c)))) =
          some m := by
        rw [← ih, hS, List.head?_cons]
      have hmmem : m ∈ xs := List.mem_of_find?_eq_some hmfind
      have hmmin : ∀ c2 ∈ xs, ¬(k c2 < k m) := by
        have hall := List.find?_some hmfind
        rw [List.all_eq_true] at hall
        intro c2 hc2
        have h2 := hall c2 hc2
        simpa using h2
      rw [pyInsert]
      by_cases hmx : k m < k x
      · rw [if_pos (by simpa using hmx), List.head?_cons]
        have hxfail : ¬((x :: xs).all (fun c2 => !(decide (k c2 < k x))) = true) := by
          intro hall
          rw [List.all_eq_true] at hall
          have h2 := hall m (List.mem_cons_of_mem _ hmmem)
          simp at h2
          linarith
        rw [@List.find?_cons_of_neg _ (fun c => (x :: xs).all (fun c2 => !(decide (k c2 < k c)))) x xs hxfail]
        have hagree : ∀ c ∈ xs,
            ((x :: xs).all (fun c2 => !(decide (k c2 < k c)))) =
              (xs.all (fun c2 => !(decide (k c2 < k c)))) := by
          intro c hc
          rw [List.all_cons]
          by_cases hcall : xs.all (fun c2 => !(decide (k c2 < k c))) = true
          · have hcmin : ∀ c2 ∈ xs, ¬(k c2 < k c) := by
              rw [List.all_eq_true] at hcall
              intro c2 hc2
              have h2 := hcall c2 hc2
              simpa using h2
            have h1 : ¬(k x < k c) := by
              have h2 : k c ≤ k m := le_of_not_lt (hcmin m hmmem)
              intro hxc
              linarith
            rw [hcall]
            simp [h1]
          · have hc' : xs.all (fun c2 => !(decide (k c2 < k c))) = false :=
              Bool.eq_false_iff.mpr hcall
            rw [hc']
            simp
        rw [find?_congr_mem hagree, hmfind]
      · rw [if_neg (by simpa using hmx), List.head?_cons]
        have hxpass : ((x :: xs).all (fun c2 => !(decide (k c2 < k x)))) = true := by
          rw [List.all_eq_true]
          intro c2 hc2
          rcases List.mem_cons.mp hc2 with h1 | h1
          · rw [h1]
            simp
          · have h2 : k x ≤ k m := le_of_not_lt hmx
            have h3 : k m ≤ k c2 := le_of_not_lt (hmmin c2 h1)
            simp
            linarith
        rw [@List.find?_cons_of_pos _ (fun c => (x :: xs).all (fun c2 => !(decide (k c2 < k c)))) x xs hxpass]

/-- C6: when the entry scan finds candidates (and their RSI keys are all
defined, i.e. not `NaN`), the pick is the FIRST candidate in universe order
whose RSI is minimal: lowest `rsi14` wins, ties go to the first-listed
instrument, and the selection is a pure function of the inputs (identical
runs pick identically). -/
theorem C6_lowest_rsi_tie_first_listed (strategy_name : String) (frames : List Frame)
    (d : Nat) (hne : BSim.collectCandidates strategy_name frames d ≠ [])
    (hsome : ∀ c ∈ BSim.collectCandidates strategy_name frames d, c.rsi.isSome) :
    pickBest (BSim.collectCandidates strategy_name frames d) =
      (BSim.collectCandidates strategy_name frames d).find?
        (fun c => (BSim.collectCandidates strategy_name frames d).all
          (fun c2 => !(candLt c2 c))) := by
  have hagree : ∀ a ∈ BSim.collectCandidates strategy_name frames d,
      ∀ b ∈ BSim.collectCandidates strategy_name frames d,
      candLt a b = decide (a.rsi.getD 0 < b.rsi.getD 0) := by
    intro a ha b hb
    obtain ⟨xa, hxa⟩ := Option.isSome_iff_exists.mp (hsome a ha)
    obtain ⟨xb, hxb⟩ := Option.isSome_iff_exists.mp (hsome b hb)
    rw [candLt, hxa, hxb]
    rfl
  rw [pickBest, pySort_congr hagree,
    pySort_head_key (fun c => c.rsi.getD 0) (BSim.collectCandidates strategy_name frames d)]
  apply find?_congr_mem
  intro a ha
  apply all_congr_mem
  intro b hb
  rw [hagree b hb a ha]

/-- Witness for `C6_lowest_rsi_tie_first_listed`: two candidates tied at
RSI 25; the characterization instantiates on the concrete scan. -/
theorem C6_witness :
    pickBest (BSim.collectCandidates "Baseline" [frameTieA, frameTieB] 0) =
      (BSim.collectCandidates "Baseline" [frameTieA, frameTieB] 0).find?
        (fun c => (BSim.collectCandidates "Baseline" [frameTieA, frameTieB] 0).all
          (fun c2 => !(candLt c2 c))) :=
  C6_lowest_rsi_tie_first_listed "Baseline" [frameTieA, frameTieB] 0 (by decide) (by decide)
